import Mathlib

/-!
Verification development for the PACT `MusicGen` package
(`MusLib.py`, `PhraseGen.py`, `Generators.py`, `Styles.py`).

The Python source is shallowly embedded below.  Machine integers are
modelled as `Int`/`Nat`, Python floats appearing in exact arithmetic
positions (duration fractions, `as_integer_ratio`) as `ℚ`, and the
transcendental parts (`math.exp`, `math.log2`) as real numbers.  Code
that can raise is modelled with `Except PyErr`.  Note that
`Generators.py` contains verbatim copies of the `PitchGenerator`,
`RhythmGenerator` and `PhraseGenerator` classes of `MusLib.py` /
`PhraseGen.py` (the copies in `Generators.py` cannot even be imported,
since they reference the undefined names `DurationSet` and
`choose_from_list`); the embedding below covers both copies, whose
method bodies are line-for-line identical.
-/

/-- Python exception kinds that the embedded code can raise.
`valueErrorEmptyRange` is the `ValueError` raised by
`random.randint(0, -1)` on an empty range, `mathDomainError` the
`ValueError` raised by `math.log2` on a non-positive argument. -/
inductive PyErr
  | typeError
  | valueError
  | valueErrorEmptyRange
  | mathDomainError
  | zeroDivisionError
  | runtimeError
  | notImplementedError
  | attributeError
deriving DecidableEq

deriving instance DecidableEq for Except

/-- `max_allowed_duration = 2**32-1` from `MusLib.py`. -/
def max_allowed_duration : Int := 2 ^ 32 - 1

/-- `Duration.qnote_dur = 96` from `MusLib.py`. -/
def qnote_dur : Int := 96

/-- Value content of a constructed `Duration` object: the DU count
`_duration` and the `_is_dotted` / `_is_triplet` flags. -/
structure PyDuration where
  du : Int
  is_dotted : Bool
  is_triplet : Bool
deriving DecidableEq

/-- An exact fraction of a whole note, numerator and (positive)
denominator.  The Python source carries this value as a float; every
arithmetic step performed on it (`n/d`, `* 2/3`, `* 1.5`,
`* 4 * qnote_dur`) is modelled exactly here, which agrees with the
IEEE-double computation on all the duration literals the tables can
produce. -/
structure NoteFrac where
  num : Int
  den : Int
deriving DecidableEq

/-- `Duration.simple_names` (in source/insertion order). -/
def simple_names : List (String × NoteFrac) :=
  [("octuple whole", ⟨8, 1⟩), ("quadruple whole", ⟨4, 1⟩),
   ("double whole", ⟨2, 1⟩), ("whole", ⟨1, 1⟩), ("half", ⟨1, 2⟩),
   ("quarter", ⟨1, 4⟩), ("eighth", ⟨1, 8⟩), ("sixteenth", ⟨1, 16⟩),
   ("thirty second", ⟨1, 32⟩), ("sixty fourth", ⟨1, 64⟩)]

/-- `Duration.fancy_names` (in source/insertion order). -/
def fancy_names : List (String × NoteFrac) :=
  [("maxima", ⟨8, 1⟩), ("longa", ⟨4, 1⟩), ("breve", ⟨2, 1⟩),
   ("semibreve", ⟨1, 1⟩), ("minim", ⟨1, 2⟩), ("crotchet", ⟨1, 4⟩),
   ("quaver", ⟨1, 8⟩), ("semiquaver", ⟨1, 16⟩),
   ("demisemiquaver", ⟨1, 32⟩), ("hemidemisemiquaver", ⟨1, 64⟩)]

/-- Python `str.lower()` (ASCII case suffices for the duration grammar). -/
def pyLower (s : String) : List Char := s.toList.map Char.toLower

/-- Leftmost match of an ordered alternation of literal patterns, as in
`re.search('dotted|dot', s)`: scan positions left to right and at each
position try the alternatives in order. -/
def searchFirst (pats : List (List Char)) : List Char → Option (List Char)
  | [] => none
  | c :: cs =>
    match pats.find? (fun p => List.isPrefixOf p (c :: cs)) with
    | some p => some p
    | none => searchFirst pats cs

/-- One fuel step of `removeAll`; fuel is the length of the scanned
list, which bounds the number of scan positions, so the fuelled
recursion computes exactly Python's `str.replace(pat, '')` for a
non-empty pattern. -/
def removeAllFuel (pat : List Char) : Nat → List Char → List Char
  | 0, l => l
  | _ + 1, [] => []
  | fuel + 1, c :: cs =>
    if List.isPrefixOf pat (c :: cs) ∧ pat ≠ [] then
      removeAllFuel pat fuel (List.drop (pat.length - 1) cs)
    else
      c :: removeAllFuel pat fuel cs

/-- Python `s.replace(pat, '')`: remove all (non-overlapping, leftmost)
occurrences of `pat`. -/
def removeAll (pat l : List Char) : List Char :=
  removeAllFuel pat l.length l

/-- Python `str.strip()`: drop leading and trailing whitespace. -/
def stripWs (l : List Char) : List Char :=
  ((l.dropWhile Char.isWhitespace).reverse.dropWhile Char.isWhitespace).reverse

/-- Regex `^\d+/?\d*$` used for the fraction form of a duration
string: one or more digits, an optional single slash, then zero or more
digits. -/
def matchesFracPattern (l : List Char) : Bool :=
  let ds := l.takeWhile Char.isDigit
  let rest := l.drop ds.length
  ds ≠ [] ∧
    (rest = [] ∨ (rest.take 1 = ['/'] ∧ (rest.drop 1).all Char.isDigit))

/-- Split a character list on a separator character, keeping empty
pieces, as Python `str.split` does. -/
def splitOnChar (sep : Char) : List Char → List (List Char)
  | [] => [[]]
  | c :: cs =>
    match splitOnChar sep cs with
    | [] => [[c]]
    | h :: t => if c = sep then [] :: h :: t else (c :: h) :: t

/-- Digits to the natural number they denote (`int(x)` on a digit
string). -/
def digitsToNat (l : List Char) : Nat :=
  l.foldl (fun a c => a * 10 + (c.toNat - '0'.toNat)) 0

/-- The fraction branch of `Duration._parse_duration_string`:
`frac = [int(x) for x in dur_str.split('/') if len(x) > 0]`, then
`frac[0]` or `frac[0]/frac[1]`.  A zero denominator raises
`ZeroDivisionError` from the Python division. -/
def parseFrac (l : List Char) : Except PyErr NoteFrac :=
  match (splitOnChar '/' l).filter (fun t => t.length > 0) with
  | [a] => .ok ⟨digitsToNat a, 1⟩
  | [a, b] =>
    if digitsToNat b = 0 then .error .zeroDivisionError
    else .ok ⟨digitsToNat a, digitsToNat b⟩
  | _ => .error .runtimeError

/-- Separator options for one space inside a note name
(regex `[ \-_]?`: space, dash, underscore, or nothing). -/
def wordSeps : List (List Char) := [[], [' '], ['-'], ['_']]

/-- Separator options before a trailing `note` (regex `[ \-_]note`:
exactly one of space, dash, underscore). -/
def noteSeps : List (List Char) := [[' '], ['-'], ['_']]

/-- All strings matched by `Duration._note_name_regex` applied to a
multi-word name: each internal space may be a space, dash, underscore
or omitted. -/
def joinWithSeps : List (List Char) → List (List Char)
  | [] => [[]]
  | [w] => [w]
  | w :: ws =>
    (joinWithSeps ws).flatMap (fun rest => wordSeps.map (fun sp => w ++ sp ++ rest))

/-- Whether `l` matches `Duration._note_name_regex(name)`:
`'^' + name-with-flexible-separators + '([ \-_]note)?$'`. -/
def matchesNoteName (name : String) (l : List Char) : Bool :=
  let ws := (splitOnChar ' ' name.toList).filter (fun t => t ≠ [])
  let bases := joinWithSeps ws
  let withNote := bases.flatMap (fun b => noteSeps.map (fun sp => b ++ sp ++ ('n' :: 'o' :: 't' :: 'e' :: [])))
  (bases ++ withNote).contains l

/-- First table entry whose note-name regex matches, as the `for k, v`
loops over `simple_names` / `fancy_names` do. -/
def findName (tbl : List (String × NoteFrac)) (l : List Char) : Option NoteFrac :=
  (tbl.find? (fun kv => matchesNoteName kv.1 l)).map (fun kv => kv.2)

/-- The tail of `_parse_duration_string`:
`dur = frac * 4 * Duration.qnote_dur` followed by `int(dur)`, which
truncates toward zero (the `FractionalDurationUnit` warning is
non-fatal and carries no data). -/
def fracToDU (f : NoteFrac) : Int := (f.num * 4 * qnote_dur).tdiv f.den

/-- `Duration._parse_duration_string`, returning the DU count together
with the `_is_dotted` and `_is_triplet` flags it sets on `self`. -/
def parse_duration_string (input : String) : Except PyErr (Int × Bool × Bool) :=
  let s0 := pyLower input
  if matchesFracPattern s0 then
    match parseFrac s0 with
    | .error e => .error e
    | .ok frac => .ok (fracToDU frac, false, false)
  else
    let dotted := searchFirst [['d','o','t','t','e','d'], ['d','o','t']] s0
    let is_dotted := dotted.isSome
    let s1 := match dotted with
      | some p => stripWs (removeAll p s0)
      | none => s0
    let tripl := searchFirst [['t','r','i','p','l','e','t'], ['t','u','p','l','e']] s1
    let is_triplet := tripl.isSome
    let s2 := match tripl with
      | some p => stripWs (removeAll p s1)
      | none => s1
    let fracS := findName simple_names s2
    let fracF := findName fancy_names s2
    let frac? := match fracF with
      | some v => some v
      | none => fracS
    match frac? with
    | none => .error .runtimeError
    | some f0 =>
      let f1 := if is_triplet then NoteFrac.mk (f0.num * 2) (f0.den * 3) else f0
      let f2 := if is_dotted then NoteFrac.mk (f1.num * 3) (f1.den * 2) else f1
      .ok (fracToDU f2, is_dotted, is_triplet)

namespace Duration

/-- `Duration.__init__` on an `int` argument: the only validation is
the upper bound against `max_allowed_duration`; the flags stay `False`. -/
def initInt (n : Int) : Except PyErr PyDuration :=
  if n > max_allowed_duration then .error .valueError
  else .ok ⟨n, false, false⟩

/-- `Duration.__init__` on a `str` argument: parse, then apply the same
upper-bound check. -/
def initStr (s : String) : Except PyErr PyDuration :=
  match parse_duration_string s with
  | .error e => .error e
  | .ok (du, d, t) =>
    if du > max_allowed_duration then .error .valueError
    else .ok ⟨du, d, t⟩

end Duration

/-- A `Pitch` object as Python sees it for `==`: the class defines no
`__eq__`, so comparison falls back to object identity; `oid` models
`id(self)`, and `note` is the integer value stored by `__init__`. -/
structure PitchObj where
  note : Int
  oid : Nat
deriving DecidableEq

/-- A `Duration` object under Python `==`: again no `__eq__` is
defined, so only the object identity `oid` matters. -/
structure DurationObj where
  du : Int
  oid : Nat
deriving DecidableEq

/-- Python `==` on two `Pitch` instances (default `object.__eq__`,
identity). -/
def pitchEq (p q : PitchObj) : Bool := p.oid == q.oid

/-- Python `==` on two `Duration` instances (default `object.__eq__`,
identity). -/
def durationObjEq (d e : DurationObj) : Bool := d.oid == e.oid

/-- `precision = 1e-6` from `MusLib.py`. -/
noncomputable def precision : ℝ := 1 / 1000000

/-- `Meter` from `MusLib.py` (accepted by `calculate_syncopation` but
never consulted). -/
structure Meter where
  pulse_per_bar : Int
  pulse_note : Int

open scoped Classical

/-- `math.log2` on an exact value: raises `ValueError` (math domain
error) on a non-positive argument, as CPython does. -/
noncomputable def log2Py (x : ℚ) : Except PyErr ℝ :=
  if 0 < x then .ok (Real.logb 2 (x : ℝ)) else .error .mathDomainError

/-- `is_simple(length)` from `MusLib.py`:
`math.log2(length) % 1 < precision`.  Python float `% 1` is the
fractional part with the divisor's (positive) sign, i.e. `Int.fract`. -/
noncomputable def is_simple (length : ℚ) : Except PyErr Bool :=
  match log2Py length with
  | .error e => .error e
  | .ok l => .ok (decide (Int.fract l < precision))

/-- The predicate `is_simple` decides (for positive lengths). -/
noncomputable def IsSimpleLen (length : ℚ) : Prop :=
  Int.fract (Real.logb 2 (length : ℝ)) < precision

/-- `RhythmGenerator.calculate_syncopation(length, beat, meter, linear)`.
`length` and `beat` are modelled as the exact rationals the Python
floats denote; `as_integer_ratio()` then yields their reduced
numerator/denominator pairs, of which only the denominators are used. -/
noncomputable def calculate_syncopation (length beat : ℚ) (meter : Meter)
    (linear : Bool) : Except PyErr ℝ :=
  let start_wt : ℝ := 2
  match is_simple length with
  | .error e => .error e
  | .ok b =>
    if b then
      let start_score : ℝ := max 0 ((beat.den : ℝ) / (length.den : ℝ) - 1)
      let end_score : ℝ := max 0 (((beat + length).den : ℝ) / (length.den : ℝ) - 1)
      let score := (start_score * start_wt + end_score) * 1 / (length : ℝ)
      if linear = true ∧ 0 < score then .ok (Real.logb 2 score) else .ok score
    else .error .notImplementedError

/-- The repeat threshold exactly as both `gen_next_pitch` and
`gen_next_rhythm` compute it:
`chance = (1 - math.exp(self.repeat_wt)) * math.exp(-n_rep/self.repeat_decay)`.
Note the first exponential takes `repeat_wt` itself, not its negation. -/
noncomputable def repeat_chance_code (r rd : ℝ) (n : ℕ) : ℝ :=
  (1 - Real.exp r) * Real.exp (-(n : ℝ) / rd)

/-- Modelled from the spec: the repeat-probability formula that §4.2,
§4.3 and the generators' own docstrings state,
`p = (1 - exp(-r)) * exp(-n/rd)`.  Kept separate so it can be compared
with `repeat_chance_code`, the threshold the code actually computes. -/
noncomputable def repeat_chance_spec (r rd : ℝ) (n : ℕ) : ℝ :=
  (1 - Real.exp (-r)) * Real.exp (-(n : ℝ) / rd)

/-- State of a `PitchGenerator`: the enumerated pitches of its
`PitchSet` (as integers), the float parameters, and the append-only
`_notes_so_far` history of `Pitch` objects.  `next_oid` models Python's
object-identity allocator: `PitchSet.__getitem__` builds a fresh
`Pitch` on every call, while the repeat branch re-appends the very same
object. -/
structure PitchGen where
  pitch_set : List Int
  repeat_wt : ℝ
  repeat_decay : ℝ
  notes_so_far : List PitchObj
  next_oid : Nat

/-- Length of the run of entries identity-equal to the last pitch, over
the reversed tail (`self.pitches[-2::-1]`), stopping at the first
mismatch.  `Pitch` has no `__eq__`, so `pitch == self.pitches[-1]`
compares object identity. -/
def pitchTrailRun (last : PitchObj) : List PitchObj → Nat
  | [] => 0
  | p :: ps => if p.oid = last.oid then pitchTrailRun last ps + 1 else 0

/-- `PitchGenerator.count_repeated_pitches`. -/
def count_repeated_pitches (g : PitchGen) : Nat :=
  match g.notes_so_far.reverse with
  | [] => 0
  | last :: rest => pitchTrailRun last rest

/-- The fall-through of `gen_next_pitch`:
`self.add_pitch(self.pitch_set[random.randint(0, len(self.pitch_set) - 1)])`.
`random.randint(0, -1)` on an empty pitch set raises `ValueError`;
otherwise the draw is modelled by reducing the oracle value `k` modulo
the set size, which reaches exactly the indices `randint` can return. -/
def gen_pitch_uniform (g : PitchGen) (k : Nat) : Except PyErr PitchGen :=
  if g.pitch_set.isEmpty then .error .valueErrorEmptyRange
  else
    .ok { g with
      notes_so_far := g.notes_so_far ++
        [⟨g.pitch_set.getD (k % g.pitch_set.length) 0, g.next_oid⟩],
      next_oid := g.next_oid + 1 }

/-- `PitchGenerator.gen_next_pitch`.  `u` is the oracle value of
`random.random()`.  With a non-empty history the code divides by
`repeat_decay` (a `ZeroDivisionError` when it is zero), then repeats
the previous object when `u < chance`. -/
noncomputable def gen_next_pitch (g : PitchGen) (u : ℝ) (k : Nat) :
    Except PyErr PitchGen :=
  match g.notes_so_far.getLast? with
  | some last =>
    if g.repeat_decay = 0 then .error .zeroDivisionError
    else if u < repeat_chance_code g.repeat_wt g.repeat_decay (count_repeated_pitches g) then
      .ok { g with notes_so_far := g.notes_so_far ++ [last] }
    else gen_pitch_uniform g k
  | none => gen_pitch_uniform g k

/-- A `Rhythm` object as the rhythm generator consumes it: the
`.start` and `.duration` integer accessors (DU values). -/
structure PyRhythm where
  start : Int
  dur : Int
deriving DecidableEq

/-- State of a `RhythmGenerator`: the allowed durations (by DU value),
the float parameters, the `_start_time` offset and the append-only
`_rhythms_so_far` history. -/
structure RhythmGen where
  duration_set : List Int
  repeat_wt : ℝ
  repeat_decay : ℝ
  start_time : Int
  rhythms : List PyRhythm

/-- Argument of `RhythmGenerator.add_duration`: a `Duration` or a
`Rhythm` instance. -/
inductive DurOrRhythm
  | dur (d : Int)
  | rhy (r : PyRhythm)

/-- `RhythmGenerator.get_next_start_time`: the stored offset when the
history is empty, else previous start plus previous duration, passed
through the `StartTime` constructor, which raises `TypeError` on a
negative value. -/
def get_next_start_time (g : RhythmGen) : Except PyErr Int :=
  match g.rhythms.getLast? with
  | none => .ok g.start_time
  | some r =>
    if r.start + r.dur < 0 then .error .typeError else .ok (r.start + r.dur)

/-- `RhythmGenerator.add_duration`.  When handed a `Rhythm` the code
executes `dur = Rhythm._duration_instance` — an attribute lookup on the
`Rhythm` *class*, which has no such attribute (it is set per instance
in `__init__`) — raising `AttributeError` before anything is appended.
With a `Duration` it appends `Rhythm(self.get_next_start_time(), dur)`. -/
def add_duration (g : RhythmGen) (x : DurOrRhythm) : Except PyErr RhythmGen :=
  match x with
  | .rhy _ => .error .attributeError
  | .dur d =>
    match get_next_start_time g with
    | .error e => .error e
    | .ok s => .ok { g with rhythms := g.rhythms ++ [⟨s, d⟩] }

/-- Run length of trailing rhythms whose duration equals `d`, over the
reversed tail, stopping at the first mismatch.  `rhythm.duration`
returns an `int`, so this comparison is integer equality. -/
def rhythmTrailRun (d : Int) : List PyRhythm → Nat
  | [] => 0
  | r :: rs => if r.dur = d then rhythmTrailRun d rs + 1 else 0

/-- `RhythmGenerator.count_repeated_rhythms`. -/
def count_repeated_rhythms (g : RhythmGen) : Nat :=
  match g.rhythms.reverse with
  | [] => 0
  | last :: rest => rhythmTrailRun last.dur rest

/-- The fall-through of `gen_next_rhythm`: filter the vocabulary to
durations `<= max_length`, then `random.randint(0, len - 1)` — a
`ValueError` on an empty filtered list — and append the drawn
duration.  The draw is modelled by the oracle value `k` modulo the
filtered length. -/
def gen_rhythm_uniform (g : RhythmGen) (k : Nat) (max_length : Int) :
    Except PyErr RhythmGen :=
  if (g.duration_set.filter (fun d => d ≤ max_length)).isEmpty then
    .error .valueErrorEmptyRange
  else
    add_duration g (.dur ((g.duration_set.filter (fun d => d ≤ max_length)).getD
      (k % (g.duration_set.filter (fun d => d ≤ max_length)).length) 0))

/-- `RhythmGenerator.gen_next_rhythm(max_length)`.  `u` is the oracle
value of `random.random()`.  With a non-empty history whose last
duration fits `max_length`, the code divides by `repeat_decay`
(`ZeroDivisionError` when zero) and on `u < chance` calls
`add_duration` with the previous `Rhythm` instance. -/
noncomputable def gen_next_rhythm (g : RhythmGen) (u : ℝ) (k : Nat)
    (max_length : Int) : Except PyErr RhythmGen :=
  match g.rhythms.getLast? with
  | some last =>
    if last.dur ≤ max_length then
      if g.repeat_decay = 0 then .error .zeroDivisionError
      else if u < repeat_chance_code g.repeat_wt g.repeat_decay (count_repeated_rhythms g) then
        add_duration g (.rhy last)
      else gen_rhythm_uniform g k max_length
    else gen_rhythm_uniform g k max_length
  | none => gen_rhythm_uniform g k max_length

/-- A freshly constructed `RhythmGenerator` (empty history). -/
def RhythmGen.init (ds : List Int) (r rd : ℝ) (s : Int) : RhythmGen :=
  ⟨ds, r, rd, s, []⟩

/-- States reachable from `g` by successful `gen_next_rhythm` calls
with arbitrary draws and `max_length` arguments. -/
inductive RhythmGenSteps (g : RhythmGen) : RhythmGen → Prop
  | refl : RhythmGenSteps g g
  | step (g₁ g₂ : RhythmGen) (u : ℝ) (k : Nat) (m : Int) :
      RhythmGenSteps g g₁ → gen_next_rhythm g₁ u k m = .ok g₂ →
      RhythmGenSteps g g₂

/-- A rhythm list is contiguous from `s`: the first entry starts at
`s` and each entry starts where the previous one ended. -/
def ChainFrom (s : Int) : List PyRhythm → Prop
  | [] => True
  | r :: rs => r.start = s ∧ ChainFrom (r.start + r.dur) rs

/-- The value `get_next_start_time` produces when it does not raise:
the offset for an empty history, else previous start plus previous
duration (computed by folding along the history). -/
def nextStartVal (s : Int) : List PyRhythm → Int
  | [] => s
  | r :: rs => nextStartVal (r.start + r.dur) rs

/-- The four random draws one iteration of `gen_phrase` consumes. -/
structure PhraseDraws where
  uP : ℝ
  kP : Nat
  uR : ℝ
  kR : Nat

/-- `PhraseGenerator.gen_phrase`, fuelled: while the rhythm generator's
next start time is below the target `L`, generate one pitch step and
one rhythm step bounded by the remaining budget `L - s`.  `none` means
the fuel ran out before the loop finished; `some` carries the final
generator pair or the first exception raised. -/
noncomputable def gen_phrase_loop (L : Int) (oracle : Nat → PhraseDraws) :
    Nat → Nat → PitchGen → RhythmGen →
    Option (Except PyErr (PitchGen × RhythmGen))
  | 0, _, _, _ => none
  | fuel + 1, i, pg, rg =>
    match get_next_start_time rg with
    | .error e => some (.error e)
    | .ok s =>
      if s < L then
        match gen_next_pitch pg (oracle i).uP (oracle i).kP with
        | .error e => some (.error e)
        | .ok pg₁ =>
          match gen_next_rhythm rg (oracle i).uR (oracle i).kR (L - s) with
          | .error e => some (.error e)
          | .ok rg₁ => gen_phrase_loop L oracle fuel (i + 1) pg₁ rg₁
      else some (.ok (pg, rg))

/-- A `RhythmGenerator` whose whole vocabulary (one 96-DU duration)
exceeds the remaining budget passed to its first step. -/
def rgInfeasible : RhythmGen := ⟨[96], 0, 1, 0, []⟩

/-- A `RhythmGenerator` (negative repetitiveness, so the repeat
threshold is positive) whose history holds one 96-DU rhythm. -/
def rgRepeat : RhythmGen := ⟨[96], -1, 1, 0, [⟨0, 96⟩]⟩

/-- The generator of `RhythmGen.init [1] 0 1 0` after one successful
step. -/
def rgW1 : RhythmGen := ⟨[1], 0, 1, 0, [⟨0, 1⟩]⟩

/-- The generator of `RhythmGen.init [1] 0 1 0` after two successful
steps. -/
def rgW2 : RhythmGen := ⟨[1], 0, 1, 0, [⟨0, 1⟩, ⟨1, 1⟩]⟩

/-- A fresh `PitchGenerator` over the one-pitch space `[60]` with
repetitiveness 0 and repeat decay 1. -/
def pgW : PitchGen := ⟨[60], 0, 1, [], 0⟩

/-- A fresh `RhythmGenerator` whose vocabulary `[1, 0]` contains the
unit duration 1 DU but also a zero duration (`Duration(0)` is
constructible, see `c6_nonpositive_duration_constructs`). -/
def rgT : RhythmGen := ⟨[1, 0], 0, 1, 0, []⟩

/-- Draws that always pick index 1 in the rhythm vocabulary (the zero
duration of `rgT`). -/
def oracleT : Nat → PhraseDraws := fun _ => ⟨0, 0, 0, 1⟩

/-- C9: duration-string parsing yields DU = fraction-of-whole-note ×
4 × 96, with name-based dotted (× 1.5) and triplet (× 2/3) modifiers,
independent of spelling: "1/4", "quarter" and "quarter note" all store
96 DU; "eighth triplet" stores 32; "dotted half" stores 288. -/
theorem c9_duration_parsing :
    Duration.initStr "1/4" = .ok ⟨96, false, false⟩ ∧
    Duration.initStr "quarter" = .ok ⟨96, false, false⟩ ∧
    Duration.initStr "quarter note" = .ok ⟨96, false, false⟩ ∧
    Duration.initStr "eighth triplet" = .ok ⟨32, false, true⟩ ∧
    Duration.initStr "dotted half" = .ok ⟨288, true, false⟩ :=
  ⟨by decide, by decide, by decide, by decide, by decide⟩

/-- C10: the string "1/0" matches the fractional grammar's pattern
`^\d+/?\d*$`, and constructing a Duration from it raises
`ZeroDivisionError` from the division `n/d`, not the `RuntimeError`
("Could not parse duration string") reserved for strings matching
neither grammar. -/
theorem c10_zero_denominator_fraction :
    matchesFracPattern (pyLower "1/0") = true ∧
    Duration.initStr "1/0" = .error .zeroDivisionError ∧
    PyErr.zeroDivisionError ≠ PyErr.runtimeError :=
  ⟨by decide, by decide, by decide⟩

/-- C6 counterexample: `Duration.__init__` only checks the upper bound,
so Duration(0) and Duration(-5) construct successfully, refuting the
claim that construction from an integer ≤ 0 fails (and the invariant
0 < duration). -/
theorem c6_nonpositive_duration_constructs :
    Duration.initInt 0 = .ok ⟨0, false, false⟩ ∧
    Duration.initInt (-5) = .ok ⟨-5, false, false⟩ :=
  ⟨by decide, by decide⟩

/-- C6 amended: integer construction of a Duration succeeds exactly
when the value does not exceed `max_allowed_duration` (2^32 - 1); above
that it is a hard `ValueError`.  No lower bound is enforced. -/
theorem c6_duration_upper_bound_only (n : Int) :
    (Duration.initInt n = .ok ⟨n, false, false⟩ ↔ n ≤ max_allowed_duration) ∧
    (max_allowed_duration < n → Duration.initInt n = .error .valueError) := by
  unfold Duration.initInt
  constructor
  · split
    · rename_i h
      simp only [reduceCtorEq, false_iff]
      omega
    · rename_i h
      simp only [Except.ok.injEq, true_iff]
      omega
  · intro hlt
    rw [if_pos hlt]

/-- C6 amended, witness at the boundary values 2^32 and 96. -/
theorem c6_duration_upper_bound_only_witness :
    max_allowed_duration < 4294967296 ∧
    Duration.initInt 4294967296 = .error .valueError ∧
    (Duration.initInt 96 = .ok ⟨96, false, false⟩ ↔
      (96 : Int) ≤ max_allowed_duration) :=
  ⟨by decide, (c6_duration_upper_bound_only 4294967296).2 (by decide),
    (c6_duration_upper_bound_only 96).1⟩

/-- C5 counterexample: two `Pitch` instances with the same note value
but distinct identities do not compare equal under Python `==` (the
class defines no `__eq__`), and likewise two `Duration` instances with
the same DU value. -/
theorem c5_value_equality_fails :
    (PitchObj.mk 60 0).note = (PitchObj.mk 60 1).note ∧
    pitchEq ⟨60, 0⟩ ⟨60, 1⟩ = false ∧
    (DurationObj.mk 96 0).du = (DurationObj.mk 96 1).du ∧
    durationObjEq ⟨96, 0⟩ ⟨96, 1⟩ = false :=
  ⟨by decide, by decide, by decide, by decide⟩

/-- C5 amended: since neither `Pitch` nor `Duration` defines `__eq__`,
`==` on them is reference equality — two instances compare equal
exactly when they are the same object, regardless of their stored
values. -/
theorem c5_identity_equality :
    (∀ p q : PitchObj, pitchEq p q = true ↔ p.oid = q.oid) ∧
    (∀ d e : DurationObj, durationObjEq d e = true ↔ d.oid = e.oid) := by
  constructor
  · intro p q
    simp [pitchEq]
  · intro d e
    simp [durationObjEq]

/-- C1: the repeat threshold the generators actually compare against is
`(1 - exp(r)) * exp(-n/rd)` — the first exponential is missing the
negation that the docstrings and spec state — so at r = 1, rd = 1,
n = 0 the code's threshold is 1 - e < 0 while the documented formula
gives 1 - e⁻¹ > 0; the two disagree. -/
theorem c1_repeat_threshold_sign_bug :
    repeat_chance_code 1 1 0 < 0 ∧
    0 < repeat_chance_spec 1 1 0 ∧
    repeat_chance_code 1 1 0 ≠ repeat_chance_spec 1 1 0 := by
  have hc : repeat_chance_code 1 1 0 = 1 - Real.exp 1 := by
    unfold repeat_chance_code
    norm_num
  have hs : repeat_chance_spec 1 1 0 = 1 - Real.exp (-1) := by
    unfold repeat_chance_spec
    norm_num
  have h1 : (1 : ℝ) < Real.exp 1 := Real.one_lt_exp_iff.mpr one_pos
  have h2 : Real.exp (-1) < 1 := Real.exp_lt_one_iff.mpr (by norm_num)
  refine ⟨by rw [hc]; linarith, by rw [hs]; linarith, ?_⟩
  rw [hc, hs]
  intro hEq
  have : Real.exp (-1) = Real.exp 1 := by linarith
  nlinarith

/-- C2: when no duration in the vocabulary fits the remaining budget
(and the repeat branch is not taken — here the history is empty), the
step fails with the `ValueError` that `random.randint(0, -1)` raises on
an empty range; the project defines no NoFeasibleDuration error
anywhere, so no such catchable error is raised.  Nothing is appended:
the exception occurs before `add_duration`. -/
theorem c2_infeasible_budget_raises_randint_error :
    gen_next_rhythm rgInfeasible 0 0 50 = .error .valueErrorEmptyRange ∧
    PyErr.valueErrorEmptyRange ≠ PyErr.notImplementedError := by
  constructor
  · rfl
  · decide

/-- Whenever the repeat branch of `gen_next_rhythm` wins the draw
(non-empty history, previous duration within `max_length`, nonzero
decay, `u` below the threshold), the step reaches `add_duration` with a
`Rhythm` argument and raises `AttributeError`. -/
theorem gen_next_rhythm_repeat_raises (g : RhythmGen) (u : ℝ) (k : Nat)
    (m : Int) (last : PyRhythm) (hlast : g.rhythms.getLast? = some last)
    (hfit : last.dur ≤ m) (hrd : g.repeat_decay ≠ 0)
    (hu : u < repeat_chance_code g.repeat_wt g.repeat_decay (count_repeated_rhythms g)) :
    gen_next_rhythm g u k m = .error .attributeError := by
  unfold gen_next_rhythm
  rw [hlast]
  dsimp only
  rw [if_pos hfit, if_neg hrd, if_pos hu]
  rfl

/-- C3: on a successful repeat draw (possible, e.g., with negative
repetitiveness, u = 0) `gen_next_rhythm` does not append the repeated
rhythm; it raises `AttributeError`, because `add_duration` looks up
`Rhythm._duration_instance` on the `Rhythm` class instead of on the
passed instance. -/
theorem c3_repeat_draw_attribute_error :
    gen_next_rhythm rgRepeat 0 0 96 = .error .attributeError := by
  have hpos : (0 : ℝ) < repeat_chance_code rgRepeat.repeat_wt
      rgRepeat.repeat_decay (count_repeated_rhythms rgRepeat) := by
    have hcount : count_repeated_rhythms rgRepeat = 0 := rfl
    have hch : repeat_chance_code (-1) 1 0 = 1 - Real.exp (-1) := by
      unfold repeat_chance_code
      norm_num
    have h2 : Real.exp (-1) < 1 := Real.exp_lt_one_iff.mpr (by norm_num)
    show (0 : ℝ) < repeat_chance_code (-1) 1 (count_repeated_rhythms rgRepeat)
    rw [hcount, hch]
    linarith
  exact gen_next_rhythm_repeat_raises rgRepeat 0 0 96 ⟨0, 96⟩ rfl le_rfl
    one_ne_zero hpos

/-- C8 counterexample: at the non-simple length -1 (log2 undefined, so
certainly not an integer) the scorer raises the math-domain
`ValueError` from `math.log2`, not the `NotImplementedError` the claim
promises for every non-simple length. -/
theorem c8_nonpositive_length_math_domain :
    calculate_syncopation (-1) 0 ⟨4, 4⟩ false = .error .mathDomainError ∧
    PyErr.mathDomainError ≠ PyErr.notImplementedError := by
  constructor
  · unfold calculate_syncopation is_simple log2Py
    rw [if_neg (by norm_num : ¬ (0 : ℚ) < -1)]
  · decide

/-- C8 amended: for every positive length the scorer raises
`NotImplementedError` exactly when the length is not simple, returns a
score for every simple length, and in particular returns exactly 0 for
length 1.0 starting at beat 0.0.  (For non-positive lengths it instead
raises the math-domain `ValueError` of `math.log2`.) -/
theorem c8_simple_length_dichotomy (length beat : ℚ) (mtr : Meter)
    (linear : Bool) (hl : 0 < length) :
    (calculate_syncopation length beat mtr linear = .error .notImplementedError
      ↔ ¬ IsSimpleLen length) ∧
    (IsSimpleLen length →
      ∃ sc : ℝ, calculate_syncopation length beat mtr linear = .ok sc) ∧
    calculate_syncopation 1 0 mtr false = .ok 0 := by
  have hsimp : ∀ l : ℚ, 0 < l → is_simple l = .ok (decide (IsSimpleLen l)) := by
    intro l hl0
    unfold is_simple log2Py IsSimpleLen
    rw [if_pos hl0]
  have hone : IsSimpleLen 1 := by
    unfold IsSimpleLen precision
    rw [show ((1 : ℚ) : ℝ) = 1 by norm_num, Real.logb_one, Int.fract_zero]
    norm_num
  refine ⟨?_, ?_, ?_⟩
  · unfold calculate_syncopation
    rw [hsimp length hl]
    dsimp only
    simp only [decide_eq_true_eq]
    by_cases hP : IsSimpleLen length
    · rw [if_pos hP]
      split
      · simp [hP]
      · simp [hP]
    · rw [if_neg hP]
      simp [hP]
  · intro hP
    unfold calculate_syncopation
    rw [hsimp length hl]
    dsimp only
    simp only [decide_eq_true_eq]
    rw [if_pos hP]
    split
    · exact ⟨_, rfl⟩
    · exact ⟨_, rfl⟩
  · unfold calculate_syncopation
    rw [hsimp 1 (by norm_num)]
    dsimp only
    simp only [decide_eq_true_eq]
    rw [if_pos hone]
    rw [if_neg (by simp : ¬ (false = true ∧ (0 : ℝ) <
      (max 0 (((0 : ℚ).den : ℝ) / ((1 : ℚ).den : ℝ) - 1) * 2 +
        max 0 ((((0 : ℚ) + 1).den : ℝ) / ((1 : ℚ).den : ℝ) - 1)) * 1 /
          ((1 : ℚ) : ℝ)))]
    norm_num

/-- `nextStartVal` agrees with the `getLast?`-based computation that
`get_next_start_time` performs. -/
theorem nextStartVal_eq_getLast (l : List PyRhythm) (s : Int) :
    nextStartVal s l =
      match l.getLast? with
      | none => s
      | some r => r.start + r.dur := by
  induction l generalizing s with
  | nil => rfl
  | cons r rs ih =>
    cases rs with
    | nil => rfl
    | cons c t =>
      rw [List.getLast?_cons_cons]
      exact ih (r.start + r.dur)

/-- A successful `get_next_start_time` returns `nextStartVal`. -/
theorem get_next_start_time_eq (g : RhythmGen) (s' : Int)
    (h : get_next_start_time g = .ok s') :
    s' = nextStartVal g.start_time g.rhythms := by
  rw [nextStartVal_eq_getLast]
  unfold get_next_start_time at h
  cases hl : g.rhythms.getLast? with
  | none =>
    rw [hl] at h
    dsimp only at h
    injection h with h
    exact h.symm
  | some r =>
    rw [hl] at h
    dsimp only at h
    split at h
    · exact absurd h (by simp)
    · injection h with h
      exact h.symm

/-- Appending a rhythm that starts at `nextStartVal` keeps the list
contiguous. -/
theorem chainFrom_snoc (l : List PyRhythm) (s nxt d : Int)
    (h : ChainFrom s l) (hn : nxt = nextStartVal s l) :
    ChainFrom s (l ++ [⟨nxt, d⟩]) := by
  induction l generalizing s with
  | nil =>
    exact ⟨hn, trivial⟩
  | cons r rs ih =>
    obtain ⟨hr, hrest⟩ := h
    exact ⟨hr, ih (r.start + r.dur) hrest hn⟩

/-- A successful `gen_rhythm_uniform` call appends exactly one rhythm,
at the next start time, leaving every other field unchanged. -/
theorem gen_rhythm_uniform_ok_shape (g g' : RhythmGen) (k : Nat) (m : Int)
    (h : gen_rhythm_uniform g k m = .ok g') :
    ∃ s d, get_next_start_time g = .ok s ∧
      g' = { g with rhythms := g.rhythms ++ [⟨s, d⟩] } := by
  unfold gen_rhythm_uniform at h
  split at h
  · exact absurd h (by simp)
  · unfold add_duration at h
    dsimp only at h
    cases hst : get_next_start_time g with
    | error e =>
      rw [hst] at h
      exact absurd h (by simp)
    | ok s =>
      rw [hst] at h
      dsimp only at h
      injection h with h
      exact ⟨s, _, rfl, h.symm⟩

/-- A successful `gen_next_rhythm` call appends exactly one rhythm, at
the next start time, leaving every other field unchanged (the repeat
branch can never return normally: it raises `AttributeError`). -/
theorem gen_next_rhythm_ok_shape (g g' : RhythmGen) (u : ℝ) (k : Nat)
    (m : Int) (h : gen_next_rhythm g u k m = .ok g') :
    ∃ s d, get_next_start_time g = .ok s ∧
      g' = { g with rhythms := g.rhythms ++ [⟨s, d⟩] } := by
  unfold gen_next_rhythm at h
  cases hl : g.rhythms.getLast? with
  | none =>
    rw [hl] at h
    dsimp only at h
    exact gen_rhythm_uniform_ok_shape _ _ _ _ h
  | some last =>
    rw [hl] at h
    dsimp only at h
    split at h
    · split at h
      · exact absurd h (by simp)
      · split at h
        · exact absurd h (by simp [add_duration])
        · exact gen_rhythm_uniform_ok_shape _ _ _ _ h
    · exact gen_rhythm_uniform_ok_shape _ _ _ _ h

/-- Successful steps preserve the start offset and contiguity of the
history. -/
theorem rhythmGenSteps_chain (g₀ g : RhythmGen) (h : RhythmGenSteps g₀ g) :
    g.start_time = g₀.start_time ∧
    (ChainFrom g₀.start_time g₀.rhythms → ChainFrom g₀.start_time g.rhythms) := by
  induction h with
  | refl => exact ⟨rfl, fun hc => hc⟩
  | step g₁ g₂ u k m hsteps hstep ih =>
    obtain ⟨s, d, hst, hshape⟩ := gen_next_rhythm_ok_shape g₁ g₂ u k m hstep
    obtain ⟨ih1, ih2⟩ := ih
    constructor
    · rw [hshape]
      exact ih1
    · intro hc
      rw [hshape]
      show ChainFrom g₀.start_time (g₁.rhythms ++ [⟨s, d⟩])
      have hsv : s = nextStartVal g₀.start_time g₁.rhythms := by
        rw [get_next_start_time_eq g₁ s hst, ih1]
      exact chainFrom_snoc g₁.rhythms g₀.start_time s d (ih2 hc) hsv

/-- From `ChainFrom` to the indexed adjacent-pair formulation. -/
theorem chainFrom_get (s : Int) (l : List PyRhythm) (h : ChainFrom s l) :
    (∀ h0 : 0 < l.length, (l.get ⟨0, h0⟩).start = s) ∧
    (∀ i, ∀ hi : i + 1 < l.length,
      (l.get ⟨i + 1, hi⟩).start =
        (l.get ⟨i, Nat.lt_of_succ_lt hi⟩).start +
          (l.get ⟨i, Nat.lt_of_succ_lt hi⟩).dur) := by
  induction l generalizing s with
  | nil =>
    constructor
    · intro h0
      exact absurd h0 (by simp)
    · intro i hi
      exact absurd hi (by simp)
  | cons r rs ih =>
    obtain ⟨hr, hrest⟩ := h
    obtain ⟨ih1, ih2⟩ := ih (r.start + r.dur) hrest
    constructor
    · intro h0
      simpa using hr
    · intro i hi
      cases i with
      | zero =>
        have hlen : 0 < rs.length := by
          simpa using hi
        have h1 := ih1 hlen
        simpa using h1
      | succ j =>
        have hj : j + 1 < rs.length := by
          simpa using hi
        have h2 := ih2 j hj
        simpa using h2

/-- C4: in every state reachable from a fresh `RhythmGenerator` by
successful `gen_next_rhythm` calls (any draws, any per-call
`max_length`, any start offset), the first rhythm starts at the
configured offset and each later rhythm starts exactly where the
previous one ended. -/
theorem c4_rhythm_contiguity (ds : List Int) (r rd : ℝ) (s : Int)
    (g : RhythmGen) (h : RhythmGenSteps (RhythmGen.init ds r rd s) g) :
    (∀ h0 : 0 < g.rhythms.length, (g.rhythms.get ⟨0, h0⟩).start = s) ∧
    (∀ i, ∀ hi : i + 1 < g.rhythms.length,
      (g.rhythms.get ⟨i + 1, hi⟩).start =
        (g.rhythms.get ⟨i, Nat.lt_of_succ_lt hi⟩).start +
          (g.rhythms.get ⟨i, Nat.lt_of_succ_lt hi⟩).dur) := by
  have hchain : ChainFrom s g.rhythms := by
    have hpres := rhythmGenSteps_chain (RhythmGen.init ds r rd s) g h
    exact hpres.2 trivial
  exact chainFrom_get s g.rhythms hchain

/-- C4 witness: a concrete two-step history `[⟨0,1⟩, ⟨1,1⟩]`, reached
by two successful uniform draws from the vocabulary `[1]`, is
contiguous from offset 0. -/
theorem c4_rhythm_contiguity_witness :
    RhythmGenSteps (RhythmGen.init [1] 0 1 0) rgW2 ∧
    ((∀ h0 : 0 < rgW2.rhythms.length, (rgW2.rhythms.get ⟨0, h0⟩).start = 0) ∧
      (∀ i, ∀ hi : i + 1 < rgW2.rhythms.length,
        (rgW2.rhythms.get ⟨i + 1, hi⟩).start =
          (rgW2.rhythms.get ⟨i, Nat.lt_of_succ_lt hi⟩).start +
            (rgW2.rhythms.get ⟨i, Nat.lt_of_succ_lt hi⟩).dur)) := by
  have h1 : gen_next_rhythm (RhythmGen.init [1] 0 1 0) 0 0 10 = .ok rgW1 := rfl
  have h2 : gen_next_rhythm rgW1 0 0 10 = .ok rgW2 := by
    unfold gen_next_rhythm
    rw [show rgW1.rhythms.getLast? = some ⟨0, 1⟩ from rfl]
    dsimp only
    rw [if_pos (by norm_num : ((⟨0, 1⟩ : PyRhythm)).dur ≤ 10)]
    rw [if_neg (show ¬ rgW1.repeat_decay = 0 from one_ne_zero)]
    have hch : repeat_chance_code rgW1.repeat_wt rgW1.repeat_decay
        (count_repeated_rhythms rgW1) = 0 := by
      show repeat_chance_code 0 1 (count_repeated_rhythms rgW1) = 0
      unfold repeat_chance_code
      rw [Real.exp_zero]
      ring
    rw [if_neg (by rw [hch]; exact lt_irrefl 0)]
    rfl
  have hst : RhythmGenSteps (RhythmGen.init [1] 0 1 0) rgW2 :=
    RhythmGenSteps.step rgW1 rgW2 0 0 10
      (RhythmGenSteps.step (RhythmGen.init [1] 0 1 0) rgW1 0 0 10
        RhythmGenSteps.refl h1) h2
  exact ⟨hst, c4_rhythm_contiguity [1] 0 1 0 rgW2 hst⟩

/-- An element `getLast?` returns is a member of the list. -/
theorem getLast?_mem_of_eq_some {α : Type} (l : List α) (a : α)
    (h : l.getLast? = some a) : a ∈ l := by
  obtain ⟨hne, heq⟩ := List.mem_getLast?_eq_getLast (Option.mem_def.mpr h)
  rw [heq]
  exact List.getLast_mem hne

/-- When the history is non-empty, a successful `get_next_start_time`
returns previous start plus previous duration. -/
theorem get_next_start_time_last (g : RhythmGen) (s : Int) (last : PyRhythm)
    (h : get_next_start_time g = .ok s) (hl : g.rhythms.getLast? = some last) :
    s = last.start + last.dur := by
  unfold get_next_start_time at h
  rw [hl] at h
  dsimp only at h
  split at h
  · exact absurd h (by simp)
  · injection h with h
    exact h.symm

/-- For a non-empty pitch set and nonzero decay, `gen_next_pitch`
always succeeds and appends exactly one pitch, leaving the
configuration fields unchanged. -/
theorem gen_next_pitch_ok (g : PitchGen) (u : ℝ) (k : Nat)
    (hps : g.pitch_set ≠ []) (hrd : g.repeat_decay ≠ 0) :
    ∃ g₁, gen_next_pitch g u k = .ok g₁ ∧
      g₁.pitch_set = g.pitch_set ∧ g₁.repeat_wt = g.repeat_wt ∧
      g₁.repeat_decay = g.repeat_decay ∧
      g₁.notes_so_far.length = g.notes_so_far.length + 1 := by
  have huni : gen_pitch_uniform g k = .ok { g with
      notes_so_far := g.notes_so_far ++
        [⟨g.pitch_set.getD (k % g.pitch_set.length) 0, g.next_oid⟩],
      next_oid := g.next_oid + 1 } := by
    unfold gen_pitch_uniform
    rw [if_neg (by simpa [List.isEmpty_iff] using hps)]
  unfold gen_next_pitch
  cases hl : g.notes_so_far.getLast? with
  | none =>
    dsimp only
    rw [huni]
    exact ⟨_, rfl, rfl, rfl, rfl, by simp⟩
  | some last =>
    dsimp only
    rw [if_neg hrd]
    split
    · exact ⟨_, rfl, rfl, rfl, rfl, by simp⟩
    · rw [huni]
      exact ⟨_, rfl, rfl, rfl, rfl, by simp⟩

/-- For nonnegative repetitiveness the threshold the code computes is
never positive — the repeat branch can never win the draw against a
nonnegative uniform value. -/
theorem repeat_chance_code_nonpos (r rd : ℝ) (n : ℕ) (hr : 0 ≤ r) :
    repeat_chance_code r rd n ≤ 0 := by
  unfold repeat_chance_code
  have h1 : 1 ≤ Real.exp r := by nlinarith [Real.add_one_le_exp r]
  have h2 : 0 < Real.exp (-(n : ℝ) / rd) := Real.exp_pos _
  nlinarith

/-- When the vocabulary contains the unit duration, all durations are
positive and at least one DU of budget remains, the uniform branch
succeeds and appends one rhythm with a positive duration within the
budget. -/
theorem gen_rhythm_uniform_progress (g : RhythmGen) (k : Nat) (m s : Int)
    (hst : get_next_start_time g = .ok s)
    (hunit : (1 : Int) ∈ g.duration_set)
    (hposd : ∀ d ∈ g.duration_set, 1 ≤ d)
    (hm : 1 ≤ m) :
    ∃ d, 1 ≤ d ∧ d ≤ m ∧
      gen_rhythm_uniform g k m = .ok { g with rhythms := g.rhythms ++ [⟨s, d⟩] } := by
  have hmem1 : (1 : Int) ∈ g.duration_set.filter (fun d => d ≤ m) :=
    List.mem_filter.mpr ⟨hunit, by simpa using hm⟩
  have hnn : g.duration_set.filter (fun d => d ≤ m) ≠ [] :=
    List.ne_nil_of_mem hmem1
  have hlt : k % (g.duration_set.filter (fun d => d ≤ m)).length <
      (g.duration_set.filter (fun d => d ≤ m)).length :=
    Nat.mod_lt _ (List.length_pos.mpr hnn)
  have hgd : (g.duration_set.filter (fun d => d ≤ m)).getD
      (k % (g.duration_set.filter (fun d => d ≤ m)).length) 0 ∈
      g.duration_set.filter (fun d => d ≤ m) := by
    rw [List.getD_eq_getElem _ _ hlt]
    exact List.getElem_mem hlt
  obtain ⟨hmemds, hle⟩ := List.mem_filter.mp hgd
  refine ⟨_, hposd _ hmemds, by simpa using hle, ?_⟩
  unfold gen_rhythm_uniform
  rw [if_neg (by simpa [List.isEmpty_iff] using hnn)]
  unfold add_duration
  dsimp only
  rw [hst]

/-- Full rhythm step under the same conditions plus nonnegative
repetitiveness, nonzero decay, and a nonnegative uniform draw: the
repeat branch never fires (its threshold is nonpositive), so the step
succeeds through the uniform branch. -/
theorem gen_next_rhythm_progress (g : RhythmGen) (u : ℝ) (k : Nat) (m s : Int)
    (hst : get_next_start_time g = .ok s)
    (hunit : (1 : Int) ∈ g.duration_set)
    (hposd : ∀ d ∈ g.duration_set, 1 ≤ d)
    (hm : 1 ≤ m) (hrw : 0 ≤ g.repeat_wt) (hrd : g.repeat_decay ≠ 0)
    (hu : 0 ≤ u) :
    ∃ d, 1 ≤ d ∧ d ≤ m ∧
      gen_next_rhythm g u k m = .ok { g with rhythms := g.rhythms ++ [⟨s, d⟩] } := by
  obtain ⟨d, hd1, hd2, hduni⟩ := gen_rhythm_uniform_progress g k m s hst hunit hposd hm
  refine ⟨d, hd1, hd2, ?_⟩
  unfold gen_next_rhythm
  cases hl : g.rhythms.getLast? with
  | none =>
    dsimp only
    exact hduni
  | some last =>
    dsimp only
    by_cases hfit : last.dur ≤ m
    · rw [if_pos hfit, if_neg hrd,
        if_neg (not_lt.mpr (le_trans
          (repeat_chance_code_nonpos g.repeat_wt g.repeat_decay
            (count_repeated_rhythms g) hrw) hu))]
      exact hduni
    · rw [if_neg hfit]
      exact hduni

/-- The `gen_phrase` loop, run with enough fuel from any state
satisfying the phrase invariant, finishes normally with equal history
lengths, every produced rhythm positive, contiguous below `L`, and a
final next-start-time at or past `L`. -/
theorem gen_phrase_loop_ok (L : Int) (oracle : Nat → PhraseDraws)
    (hOrU : ∀ j, 0 ≤ (oracle j).uR) :
    ∀ fuel i pg rg s,
      get_next_start_time rg = .ok s → 0 ≤ s → (L - s).toNat < fuel →
      pg.pitch_set ≠ [] → pg.repeat_decay ≠ 0 →
      (1 : Int) ∈ rg.duration_set → (∀ d ∈ rg.duration_set, 1 ≤ d) →
      0 ≤ rg.repeat_wt → rg.repeat_decay ≠ 0 →
      pg.notes_so_far.length = rg.rhythms.length →
      (∀ rr ∈ rg.rhythms, 0 ≤ rr.start ∧ rr.start < L ∧ 1 ≤ rr.dur) →
      ∃ pg₁ rg₁ s₁,
        gen_phrase_loop L oracle fuel i pg rg = some (.ok (pg₁, rg₁)) ∧
        pg₁.notes_so_far.length = rg₁.rhythms.length ∧
        get_next_start_time rg₁ = .ok s₁ ∧ L ≤ s₁ ∧
        (∀ rr ∈ rg₁.rhythms, 0 ≤ rr.start ∧ rr.start < L ∧ 1 ≤ rr.dur) ∧
        (s < L → rg₁.rhythms ≠ []) ∧ (¬ s < L → rg₁ = rg) := by
  intro fuel
  induction fuel with
  | zero =>
    intro i pg rg s hst hs0 hfuel
    exact absurd hfuel (by omega)
  | succ fuel ih =>
    intro i pg rg s hst hs0 hfuel hps hprd hunit hposd hrw hrd hlen hinv
    by_cases hsl : s < L
    · obtain ⟨pg₁, hpg, hps₁, hrw₁, hprd₁, hlen₁⟩ :=
        gen_next_pitch_ok pg (oracle i).uP (oracle i).kP hps hprd
      obtain ⟨d, hd1, hd2, hrg⟩ :=
        gen_next_rhythm_progress rg (oracle i).uR (oracle i).kR (L - s) s hst
          hunit hposd (by omega) hrw hrd (hOrU i)
      have hst₁ : get_next_start_time
          { rg with rhythms := rg.rhythms ++ [⟨s, d⟩] } = .ok (s + d) := by
        unfold get_next_start_time
        rw [List.getLast?_concat]
        dsimp only
        rw [if_neg (by omega)]
      obtain ⟨pg₂, rg₂, s₂, hloop, hlen₂, hst₂, hs₂, hinv₂, hne₂, hstay₂⟩ :=
        ih (i + 1) pg₁ { rg with rhythms := rg.rhythms ++ [⟨s, d⟩] } (s + d)
          hst₁ (by omega) (by omega)
          (by rw [hps₁]; exact hps) (by rw [hprd₁]; exact hprd)
          hunit hposd hrw hrd
          (by simp [hlen₁, hlen])
          (by
            intro rr hm
            rcases List.mem_append.mp hm with hmem | hmem
            · exact hinv rr hmem
            · have hrr : rr = ⟨s, d⟩ := by simpa using hmem
              subst hrr
              exact ⟨hs0, hsl, hd1⟩)
      refine ⟨pg₂, rg₂, s₂, ?_, hlen₂, hst₂, hs₂, hinv₂, ?_,
        fun h => absurd hsl h⟩
      · unfold gen_phrase_loop
        rw [hst]
        dsimp only
        rw [if_pos hsl, hpg]
        dsimp only
        rw [hrg]
        dsimp only
        exact hloop
      · intro _
        by_cases hsd : s + d < L
        · exact hne₂ hsd
        · rw [hstay₂ hsd]
          simp
    · refine ⟨pg, rg, s, ?_, hlen, hst, by omega, hinv,
        fun h => absurd h hsl, fun _ => rfl⟩
      unfold gen_phrase_loop
      rw [hst]
      dsimp only
      rw [if_neg hsl]

/-- C7 amended: for a target length L > 0, fresh generators at offset
0, a non-empty pitch space, a vocabulary that contains the unit
duration 1 DU and only positive durations, configuration per the
construction contract (rhythm repetitiveness ≥ 0, decay ≠ 0), and
draws of `random.random()` in [0, 1), `gen_phrase` terminates (fuel
L+1 suffices), produces equally many pitch and rhythm steps, and its
final rhythm satisfies start < L ≤ start + duration. -/
theorem c7_phrase_termination_amended (L : Int) (pg : PitchGen)
    (rg : RhythmGen) (oracle : Nat → PhraseDraws)
    (hL : 0 < L)
    (hfreshP : pg.notes_so_far = []) (hfreshR : rg.rhythms = [])
    (hstart : rg.start_time = 0)
    (hps : pg.pitch_set ≠ []) (hprd : pg.repeat_decay ≠ 0)
    (hunit : (1 : Int) ∈ rg.duration_set)
    (hposd : ∀ d ∈ rg.duration_set, 1 ≤ d)
    (hrw : 0 ≤ rg.repeat_wt) (hrd : rg.repeat_decay ≠ 0)
    (hu : ∀ j, 0 ≤ (oracle j).uR) :
    ∃ pg₁ rg₁,
      gen_phrase_loop L oracle (L.toNat + 1) 0 pg rg = some (.ok (pg₁, rg₁)) ∧
      pg₁.notes_so_far.length = rg₁.rhythms.length ∧
      ∃ hne : rg₁.rhythms ≠ [],
        (rg₁.rhythms.getLast hne).start < L ∧
        L ≤ (rg₁.rhythms.getLast hne).start + (rg₁.rhythms.getLast hne).dur := by
  have hst0 : get_next_start_time rg = .ok 0 := by
    unfold get_next_start_time
    rw [hfreshR, hstart]
    rfl
  obtain ⟨pg₁, rg₁, s₁, hloop, hlen₁, hst₁, hs₁, hinv₁, hne₁, _⟩ :=
    gen_phrase_loop_ok L oracle hu (L.toNat + 1) 0 pg rg 0 hst0 le_rfl
      (by omega) hps hprd hunit hposd hrw hrd
      (by rw [hfreshP, hfreshR]; rfl)
      (by rw [hfreshR]; intro rr hm; simp at hm)
  have hne : rg₁.rhythms ≠ [] := hne₁ hL
  have hglm : rg₁.rhythms.getLast hne ∈ rg₁.rhythms := List.getLast_mem hne
  have hgl : rg₁.rhythms.getLast? = some (rg₁.rhythms.getLast hne) :=
    List.getLast?_eq_getLast_of_ne_nil hne
  have hsum := get_next_start_time_last rg₁ s₁ (rg₁.rhythms.getLast hne) hst₁ hgl
  refine ⟨pg₁, rg₁, hloop, hlen₁, hne, (hinv₁ _ hglm).2.1, ?_⟩
  rw [hsum] at hs₁
  exact hs₁

/-- C7 amended, witness: L = 1, pitch space `[60]`, vocabulary `[1]`,
all draws zero. -/
theorem c7_phrase_termination_amended_witness :
    ∃ pg₁ rg₁,
      gen_phrase_loop 1 (fun _ => ⟨0, 0, 0, 0⟩) ((1 : Int).toNat + 1) 0 pgW
          (RhythmGen.init [1] 0 1 0) = some (.ok (pg₁, rg₁)) ∧
      pg₁.notes_so_far.length = rg₁.rhythms.length ∧
      ∃ hne : rg₁.rhythms ≠ [],
        (rg₁.rhythms.getLast hne).start < 1 ∧
        1 ≤ (rg₁.rhythms.getLast hne).start + (rg₁.rhythms.getLast hne).dur :=
  c7_phrase_termination_amended 1 pgW (RhythmGen.init [1] 0 1 0)
    (fun _ => ⟨0, 0, 0, 0⟩) one_pos rfl rfl rfl
    (by decide) one_ne_zero (by decide)
    (by intro d hd; simp [RhythmGen.init] at hd; omega)
    le_rfl one_ne_zero (fun j => le_rfl)

/-- With the vocabulary `[1, 0]` (which contains the unit duration)
and draws that always select the zero duration, every iteration of the
`gen_phrase` loop appends a zero-length rhythm at start 0 and the next
start time never advances, so no amount of fuel finishes the loop. -/
theorem gen_phrase_loop_stuck (fuel : Nat) :
    ∀ i (pg : PitchGen) (rg : RhythmGen),
      pg.pitch_set = [60] → pg.repeat_decay ≠ 0 →
      rg.duration_set = [1, 0] → rg.repeat_wt = 0 → rg.repeat_decay = 1 →
      rg.start_time = 0 →
      (∀ rr ∈ rg.rhythms, rr.start = 0 ∧ rr.dur = 0) →
      gen_phrase_loop 1 oracleT fuel i pg rg = none := by
  induction fuel with
  | zero =>
    intro i pg rg _ _ _ _ _ _ _
    rfl
  | succ fuel ih =>
    intro i pg rg hps hprd hds hrw hrd hs0 hinv
    have hst : get_next_start_time rg = .ok 0 := by
      unfold get_next_start_time
      cases hl : rg.rhythms.getLast? with
      | none =>
        dsimp only
        rw [hs0]
      | some r =>
        have hr := hinv r (getLast?_mem_of_eq_some rg.rhythms r hl)
        dsimp only
        rw [if_neg (by omega), hr.1, hr.2]
        norm_num
    obtain ⟨pg₁, hpg, hps₁, hrw₁, hprd₁, hlen₁⟩ :=
      gen_next_pitch_ok pg (oracleT i).uP (oracleT i).kP
        (by rw [hps]; exact (by decide)) hprd
    have hfil : rg.duration_set.filter (fun d => d ≤ (1 : Int)) = [1, 0] := by
      rw [hds]
      rfl
    have huni : gen_rhythm_uniform rg 1 1 =
        .ok { rg with rhythms := rg.rhythms ++ [⟨0, 0⟩] } := by
      unfold gen_rhythm_uniform
      rw [hfil]
      rw [if_neg (by decide)]
      unfold add_duration
      dsimp only
      rw [hst]
      rfl
    have hrg : gen_next_rhythm rg (oracleT i).uR (oracleT i).kR 1 =
        .ok { rg with rhythms := rg.rhythms ++ [⟨0, 0⟩] } := by
      show gen_next_rhythm rg 0 1 1 =
        .ok { rg with rhythms := rg.rhythms ++ [⟨0, 0⟩] }
      unfold gen_next_rhythm
      cases hl : rg.rhythms.getLast? with
      | none =>
        dsimp only
        exact huni
      | some last =>
        have hlast := hinv last (getLast?_mem_of_eq_some rg.rhythms last hl)
        dsimp only
        rw [if_pos (by rw [hlast.2]; norm_num)]
        rw [if_neg (by rw [hrd]; exact one_ne_zero)]
        have hch : repeat_chance_code rg.repeat_wt rg.repeat_decay
            (count_repeated_rhythms rg) = 0 := by
          rw [hrw]
          unfold repeat_chance_code
          rw [Real.exp_zero]
          ring
        rw [if_neg (by rw [hch]; exact lt_irrefl 0)]
        exact huni
    unfold gen_phrase_loop
    rw [hst]
    dsimp only
    rw [if_pos (by norm_num : (0 : Int) < 1), hpg]
    dsimp only
    rw [show (1 : Int) - 0 = 1 from sub_zero 1]
    rw [hrg]
    dsimp only
    exact ih (i + 1) pg₁ { rg with rhythms := rg.rhythms ++ [⟨0, 0⟩] }
      (by rw [hps₁]; exact hps) (by rw [hprd₁]; exact hprd)
      hds hrw hrd hs0
      (by
        intro rr hm
        rcases List.mem_append.mp hm with hmem | hmem
        · exact hinv rr hmem
        · have hrr : rr = ⟨0, 0⟩ := by simpa using hmem
          subst hrr
          exact ⟨rfl, rfl⟩)

/-- C7 counterexample: target length 1, a fresh pitch generator over
`[60]` and a fresh rhythm generator whose vocabulary `[1, 0]` contains
the unit duration 1 DU, with draws that always choose the zero
duration — `gen_phrase` never terminates: the loop returns `none` for
every fuel bound. -/
theorem c7_unit_vocab_nontermination :
    (fun fuel => gen_phrase_loop 1 oracleT fuel 0 pgW rgT) =
      fun _ => none := by
  funext fuel
  exact gen_phrase_loop_stuck fuel 0 pgW rgT rfl one_ne_zero rfl rfl rfl rfl
    (by intro rr hm; simp [rgT] at hm)

/-- C8 amended, witness at length 1, beat 0. -/
theorem c8_simple_length_dichotomy_witness :
    (0 : ℚ) < 1 ∧
    ((calculate_syncopation 1 0 ⟨4, 4⟩ false = .error .notImplementedError
        ↔ ¬ IsSimpleLen 1) ∧
      (IsSimpleLen 1 →
        ∃ sc : ℝ, calculate_syncopation 1 0 ⟨4, 4⟩ false = .ok sc) ∧
      calculate_syncopation 1 0 ⟨4, 4⟩ false = .ok 0) :=
  ⟨by norm_num, c8_simple_length_dichotomy 1 0 ⟨4, 4⟩ false (by norm_num)⟩
